import Mathlib

/-!
A verification development for the goPercyFRP wire protocol and
stream-reassembly engine (Client/main.go and Server/main.go).

Strings are modelled as `List Char` (the protocol content is ASCII, so
Go byte indexing and rune indexing coincide on every input the claims
touch).  Go byte values are modelled as `Nat` with explicit `< 256`
bounds where they matter.  Fallible operations return `Option`.
-/

/-! ## The base64 codec (Go encoding/base64, standard alphabet)

`b64char` is the standard-alphabet encode table and `b64val` the decode
table.  `b64EncodeList` models `base64.StdEncoding.EncodeToString`,
`b64DecodeStd` models `base64.StdEncoding.DecodeString` and
`b64DecodeRaw` models `base64.RawStdEncoding.DecodeString`; the Go
decoder silently skips CR and LF characters anywhere in its input, which
`stripNl` accounts for. -/

def b64char (i : Nat) : Char :=
  if i < 26 then Char.ofNat (65 + i)
  else if i < 52 then Char.ofNat (97 + (i - 26))
  else if i < 62 then Char.ofNat (48 + (i - 52))
  else if i = 62 then '+'
  else '/'

def b64val (c : Char) : Option Nat :=
  if 'A' ≤ c ∧ c ≤ 'Z' then some (c.toNat - 65)
  else if 'a' ≤ c ∧ c ≤ 'z' then some (c.toNat - 97 + 26)
  else if '0' ≤ c ∧ c ≤ '9' then some (c.toNat - 48 + 52)
  else if c = '+' then some 62
  else if c = '/' then some 63
  else none

/-- Go `base64.StdEncoding.EncodeToString`: 3 input bytes become 4
alphabet characters; a 1-byte tail becomes 2 characters plus `==`, a
2-byte tail becomes 3 characters plus `=`. -/
def b64EncodeList : List Nat → List Char
  | [] => []
  | [b0] => [b64char (b0 / 4), b64char (b0 % 4 * 16), '=', '=']
  | [b0, b1] => [b64char (b0 / 4), b64char (b0 % 4 * 16 + b1 / 16),
                 b64char (b1 % 16 * 4), '=']
  | b0 :: b1 :: b2 :: rest =>
      b64char (b0 / 4) :: b64char (b0 % 4 * 16 + b1 / 16) ::
      b64char (b1 % 16 * 4 + b2 / 64) :: b64char (b2 % 64) ::
      b64EncodeList rest

/-- Strict part of Go `base64.StdEncoding.DecodeString` (after newline
skipping): the input must consist of 4-character quanta; `=` padding may
appear only at the last one or two positions of the final quantum.
Go does not check the unused trailing bits (non-strict mode). -/
def b64DecodeStd : List Char → Option (List Nat)
  | [] => some []
  | c1 :: c2 :: c3 :: c4 :: rest =>
    match b64val c1, b64val c2 with
    | some a, some b =>
      if c3 = '=' then
        if c4 = '=' ∧ rest = [] then some [a * 4 + b / 16] else none
      else
        match b64val c3 with
        | some c =>
          if c4 = '=' then
            if rest = [] then some [a * 4 + b / 16, b % 16 * 16 + c / 4] else none
          else
            match b64val c4 with
            | some d =>
              (b64DecodeStd rest).map
                (fun bs => (a * 4 + b / 16) :: (b % 16 * 16 + c / 4) :: (c % 4 * 64 + d) :: bs)
            | none => none
        | none => none
    | _, _ => none
  | _ => none

/-- Strict part of Go `base64.RawStdEncoding.DecodeString`: no padding
character is accepted (`=` is an invalid byte); a trailing quantum of 2
or 3 characters is allowed, a trailing single character is an error. -/
def b64DecodeRaw : List Char → Option (List Nat)
  | [] => some []
  | [_] => none
  | [c1, c2] =>
    match b64val c1, b64val c2 with
    | some a, some b => some [a * 4 + b / 16]
    | _, _ => none
  | [c1, c2, c3] =>
    match b64val c1, b64val c2, b64val c3 with
    | some a, some b, some c => some [a * 4 + b / 16, b % 16 * 16 + c / 4]
    | _, _, _ => none
  | c1 :: c2 :: c3 :: c4 :: rest =>
    match b64val c1, b64val c2, b64val c3, b64val c4 with
    | some a, some b, some c, some d =>
      (b64DecodeRaw rest).map
        (fun bs => (a * 4 + b / 16) :: (b % 16 * 16 + c / 4) :: (c % 4 * 64 + d) :: bs)
    | _, _, _, _ => none

/-- The Go base64 decoder ignores CR and LF bytes anywhere in its input. -/
def stripNl (s : List Char) : List Char :=
  s.filter (fun c => ¬(c = '\r' ∨ c = '\n'))

/-- Go `base64.StdEncoding.DecodeString`. -/
def goDecodeStd (s : List Char) : Option (List Nat) :=
  b64DecodeStd (stripNl s)

/-- Go `base64.RawStdEncoding.DecodeString`. -/
def goDecodeRaw (s : List Char) : Option (List Nat) :=
  b64DecodeRaw (stripNl s)

/-! ## Go string primitives used by the two programs -/

/-- The ASCII white-space characters trimmed by Go `strings.TrimSpace`
(the protocol content is ASCII, where Unicode and ASCII space agree):
space, tab, LF, VT, FF, CR. -/
def isSpaceGo (c : Char) : Bool :=
  c = ' ' || c = '\t' || c = '\n' || c = Char.ofNat 11 || c = Char.ofNat 12 || c = '\r'

/-- Go `strings.TrimSpace`. -/
def goTrimSpace (s : List Char) : List Char :=
  ((s.dropWhile isSpaceGo).reverse.dropWhile isSpaceGo).reverse

/-- Go `strings.HasPrefix s pre`. -/
def goStartsWith : List Char → List Char → Bool
  | _, [] => true
  | [], _ :: _ => false
  | c :: s, p :: ps => c == p && goStartsWith s ps

/-- Go `strings.Index s string-of-one-char`: index of the first
occurrence of `c`, or `-1` if absent. -/
def goIndexCh : List Char → Char → Int
  | [], _ => -1
  | x :: xs, c =>
    if x = c then 0
    else
      let r := goIndexCh xs c
      if r < 0 then -1 else r + 1

/-- Split at the first colon, when there is one. -/
def splitFirstColon : List Char → Option (List Char × List Char)
  | [] => none
  | c :: rest =>
    if c = ':' then some ([], rest)
    else (splitFirstColon rest).map (fun p => (c :: p.1, p.2))

/-- Go `strings.SplitN s ":" 3`: at most three fields, the last keeping
any remaining colons. -/
def goSplitN3Colon (s : List Char) : List (List Char) :=
  match splitFirstColon s with
  | none => [s]
  | some (a, r1) =>
    match splitFirstColon r1 with
    | none => [a, r1]
    | some (b, r2) => [a, b, r2]

/-- Go `strings.Split s ":"`: split at every colon. -/
def splitAllColon : List Char → List (List Char)
  | [] => [[]]
  | c :: rest =>
    if c = ':' then [] :: splitAllColon rest
    else
      match splitAllColon rest with
      | [] => [[c]]
      | g :: gs => (c :: g) :: gs

def digitVal (c : Char) : Option Nat :=
  if '0' ≤ c ∧ c ≤ '9' then some (c.toNat - 48) else none

def digitsToNatAux : Nat → List Char → Option Nat
  | acc, [] => some acc
  | acc, c :: rest =>
    match digitVal c with
    | some d => digitsToNatAux (acc * 10 + d) rest
    | none => none

/-- Decimal digit run to a number; `none` on empty input or any
non-digit character. -/
def digitsToNat : List Char → Option Nat
  | [] => none
  | l => digitsToNatAux 0 l

def maxInt64 : Nat := 9223372036854775807

/-- Go `strconv.ParseInt s 10 64` (and `strconv.Atoi` on a 64-bit
platform): optional sign, decimal digits, error on empty input, on any
other character and on int64 overflow. -/
def goParseInt64 (s : List Char) : Option Int :=
  match s with
  | [] => none
  | c :: rest =>
    if c = '+' then
      match digitsToNat rest with
      | some v => if v ≤ maxInt64 then some (v : Int) else none
      | none => none
    else if c = '-' then
      match digitsToNat rest with
      | some v => if v ≤ maxInt64 + 1 then some (-(v : Int)) else none
      | none => none
    else
      match digitsToNat (c :: rest) with
      | some v => if v ≤ maxInt64 then some (v : Int) else none
      | none => none

/-- Go `fmt.Sprintf` `%d` on a non-negative integer (also
`strconv.Itoa`): decimal digits, most significant first.  The fuel
argument of the auxiliary is always sufficient (`n + 1` divisions by 10
reach zero). -/
def decReprAux : Nat → Nat → List Char → List Char
  | 0, _, acc => acc
  | fuel + 1, n, acc =>
    let d := Char.ofNat (48 + n % 10)
    if n < 10 then d :: acc else decReprAux fuel (n / 10) (d :: acc)

def decRepr (n : Nat) : List Char :=
  decReprAux (n + 1) n []

def digitChars : List Char := ['0', '1', '2', '3', '4', '5', '6', '7', '8', '9']

/-! ## Wire markers (Server/main.go, readClientResponse) -/

def chunkMarker : List Char := "CHUNK:".toList
def fileStartMarker : List Char := "FILE_TRANSFER_START:".toList
def fileEndMarker : List Char := "FILE_TRANSFER_END".toList
def screenshotStartMarker : List Char := "SCREENSHOT_START:".toList
def screenshotEndMarker : List Char := "SCREENSHOT_END".toList
def endResponseMarker : List Char := "---END---".toList

/-! ## The Chunk Codec -/

/-- Sender side (Client/main.go, sendFileToServer): one chunk line
`CHUNK:<seq>:<encodedLen>:<base64 payload>` for a byte segment (the
trailing newline is consumed by the receiver's line reader and is not
part of the model). -/
def clientChunkLine (seq : Nat) (seg : List Nat) : List Char :=
  let encoded := b64EncodeList seg
  chunkMarker ++ decRepr seq ++ [':'] ++ decRepr encoded.length ++ [':'] ++ encoded

/-- Receiver side, header split (Server/main.go lines 349-355): locate
the first three colons of the line and return everything after the
third; `none` when the header is malformed. -/
def parseChunkPayload (resp : List Char) : Option (List Char) :=
  let firstColon := goIndexCh resp ':'
  let secondColon := goIndexCh (resp.drop (firstColon + 1).toNat) ':' + firstColon + 1
  let thirdColon := goIndexCh (resp.drop (secondColon + 1).toNat) ':' + secondColon + 1
  if firstColon ≥ 0 ∧ secondColon > firstColon ∧ thirdColon > secondColon then
    some (resp.drop (thirdColon + 1).toNat)
  else none

/-- Server-side padding repair (lines 363-366 and the addPadding
helper): right-pad with `=` to a multiple of 4. -/
def padTo4 (s : List Char) : List Char :=
  if s.length % 4 = 0 then s else s ++ List.replicate (4 - s.length % 4) '='

/-- Payload cleaning of the headered chunk path (lines 358-360):
TrimSpace, then remove every CR and LF. -/
def cleanBase64 (s : List Char) : List Char :=
  (goTrimSpace s).filter (fun c => ¬(c = '\r' ∨ c = '\n'))

/-- Headered chunk decode (Server lines 357-380): clean, pad, try the
standard alphabet, then fall back to the no-padding variant. -/
def decodeHeaderedPayload (raw : List Char) : Option (List Nat) :=
  let d := padTo4 (cleanBase64 raw)
  match goDecodeStd d with
  | some bs => some bs
  | none => goDecodeRaw d

/-- Legacy (headerless) chunk decode (Server lines 407-419): TrimSpace,
pad, standard alphabet only. -/
def decodeLegacyPayload (raw : List Char) : Option (List Nat) :=
  goDecodeStd (padTo4 (goTrimSpace raw))

/-- Written from the spec's wording of the decoding policy (spec 4.1
steps 1-4), for comparison with the two source paths: strip surrounding
whitespace and embedded CR/LF, right-pad with `=` to a multiple of 4,
attempt the standard-alphabet decode, on failure attempt the no-padding
variant of the same alphabet; fail only if both attempts fail. -/
def specChunkDecodePolicy (raw : List Char) : Option (List Nat) :=
  let d := padTo4 (cleanBase64 raw)
  match goDecodeStd d with
  | some bs => some bs
  | none => goDecodeRaw d

/-- The receiver's chunk-decode procedure for one full chunk line
(trim, `CHUNK:` header recognition, header split, payload decode),
viewed as a pure codec for the round-trip claim. -/
def serverChunkDecodeLine (line : List Char) : Option (List Nat) :=
  let response := goTrimSpace line
  if goStartsWith response chunkMarker then
    match parseChunkPayload response with
    | some payload => decodeHeaderedPayload payload
    | none => none
  else none

/-! ## The Stream Demultiplexer (Server/main.go, readClientResponse)

One state record per connection; the mutable locals of
`readClientResponse` become its fields (the progress-display locals
`lastProgress` and `startTime`, which only shape console progress
output, are not modelled).  The side effects the claims speak about
(saving a file or screenshot, emitting a text line) are returned as an
event list. -/

structure DemuxState where
  isReceivingScreenshot : Bool
  screenshotData : List Char
  expectedSize : Int
  isReceivingFile : Bool
  fileData : List Nat
  expectedFileSize : Int
  fileName : List Char
  totalBytes : Int
  chunkCount : Int
  errorCount : Int
deriving DecidableEq

inductive DemuxEvent where
  | savedFile (data : List Nat) (name : List Char) (expectedSize totalBytes : Int)
  | savedScreenshot (data : List Char) (expectedSize : Int)
  | commandComplete
  | textOutput (line : List Char)
deriving DecidableEq

/-- Zero values of the Go locals at the start of readClientResponse. -/
def demuxInit : DemuxState :=
  { isReceivingScreenshot := false, screenshotData := [], expectedSize := 0,
    isReceivingFile := false, fileData := [], expectedFileSize := 0,
    fileName := [], totalBytes := 0, chunkCount := 0, errorCount := 0 }

/-- Server lines 319-443: one (already trimmed) line while
`isReceivingFile`.  `bytes.Buffer.Write` never fails, so the
write-error branches of the source are unreachable and the counters
advance exactly as on the success path. -/
def handleFileLine (st : DemuxState) (response : List Char) : DemuxState × List DemuxEvent :=
  if response = fileEndMarker then
    ({ st with isReceivingFile := false, fileData := [], totalBytes := 0,
               chunkCount := 0, errorCount := 0 },
     [.savedFile st.fileData st.fileName st.expectedFileSize st.totalBytes])
  else if response = [] then (st, [])
  else
    let st1 := { st with chunkCount := st.chunkCount + 1 }
    if goStartsWith response chunkMarker then
      match parseChunkPayload response with
      | some payload =>
        match decodeHeaderedPayload payload with
        | some decoded =>
          ({ st1 with fileData := st1.fileData ++ decoded,
                      totalBytes := st1.totalBytes + decoded.length }, [])
        | none => ({ st1 with errorCount := st1.errorCount + 1 }, [])
      | none => ({ st1 with errorCount := st1.errorCount + 1 }, [])
    else
      let base64Data := goTrimSpace response
      if base64Data = [] then (st1, [])
      else
        match decodeLegacyPayload response with
        | some decoded =>
          ({ st1 with fileData := st1.fileData ++ decoded,
                      totalBytes := st1.totalBytes + decoded.length }, [])
        | none => ({ st1 with errorCount := st1.errorCount + 1 }, [])

/-- Server lines 446-458: one (already trimmed) line while
`isReceivingScreenshot`. -/
def handleScreenshotLine (st : DemuxState) (response : List Char) :
    DemuxState × List DemuxEvent :=
  if response = screenshotEndMarker then
    ({ st with isReceivingScreenshot := false, screenshotData := [] },
     [.savedScreenshot st.screenshotData st.expectedSize])
  else
    ({ st with screenshotData := st.screenshotData ++ response }, [])

/-- Server lines 461-482 guard: `SplitN ":" 3` must give three fields
and the third must parse as an int64. -/
def fileStartParse (response : List Char) : Option (List Char × Int) :=
  match goSplitN3Colon response with
  | [_, name, szStr] =>
    match goParseInt64 szStr with
    | some sz => some (name, sz)
    | none => none
  | _ => none

/-- Server lines 485-497 guard: `Split ":"` must give exactly two
fields and the second must parse with Atoi. -/
def screenshotStartParse (response : List Char) : Option Int :=
  match splitAllColon response with
  | [_, szStr] => goParseInt64 szStr
  | _ => none

/-- Server lines 499-508: end-of-response marker, else plain text. -/
def idleTail (st : DemuxState) (response : List Char) : DemuxState × List DemuxEvent :=
  if response = endResponseMarker then (st, [.commandComplete])
  else (st, [.textOutput response])

/-- Server lines 485-508: screenshot start check, then the tail. -/
def idleAfterFileCheck (st : DemuxState) (response : List Char) :
    DemuxState × List DemuxEvent :=
  if goStartsWith response screenshotStartMarker then
    match screenshotStartParse response with
    | some size =>
      ({ st with isReceivingScreenshot := true, expectedSize := size,
                 screenshotData := [] }, [])
    | none => idleTail st response
  else idleTail st response

/-- One full iteration of the read loop on one received line (Server
lines 316-508): trim, then dispatch on the current state. -/
def processLine (st : DemuxState) (raw : List Char) : DemuxState × List DemuxEvent :=
  let response := goTrimSpace raw
  if st.isReceivingFile then handleFileLine st response
  else if st.isReceivingScreenshot then handleScreenshotLine st response
  else if goStartsWith response fileStartMarker then
    match fileStartParse response with
    | some (name, size) =>
      ({ st with isReceivingFile := true, fileName := name, expectedFileSize := size,
                 fileData := [], totalBytes := 0, chunkCount := 0, errorCount := 0 }, [])
    | none => idleAfterFileCheck st response
  else idleAfterFileCheck st response

/-- The read loop over a list of received lines, accumulating events. -/
def processLines (st : DemuxState) : List (List Char) → DemuxState × List DemuxEvent
  | [] => (st, [])
  | l :: ls =>
    let r1 := processLine st l
    let r2 := processLines r1.1 ls
    (r2.1, r1.2 ++ r2.2)

/-! ### Per-line characterisation used by the invariants -/

/-- The bytes one file-mode line contributes to the Reassembly Buffer
(empty for blank, malformed or undecodable lines). -/
def fileLineSegment (response : List Char) : List Nat :=
  if response = [] then []
  else if goStartsWith response chunkMarker then
    match parseChunkPayload response with
    | some payload => (decodeHeaderedPayload payload).getD []
    | none => []
  else if goTrimSpace response = [] then []
  else (decodeLegacyPayload response).getD []

/-- Whether one file-mode line increments the error counter. -/
def fileLineError (response : List Char) : Bool :=
  if response = [] then false
  else if goStartsWith response chunkMarker then
    match parseChunkPayload response with
    | some payload => (decodeHeaderedPayload payload).isNone
    | none => true
  else if goTrimSpace response = [] then false
  else (decodeLegacyPayload response).isNone

/-- Concatenated contributions of a list of raw lines. -/
def concatSegs : List (List Char) → List Nat
  | [] => []
  | l :: ls => fileLineSegment (goTrimSpace l) ++ concatSegs ls

/-- Sum of the decoded lengths of the successfully decoded chunks. -/
def sumSegLens : List (List Char) → Nat
  | [] => 0
  | l :: ls => (fileLineSegment (goTrimSpace l)).length + sumSegLens ls

/-- Number of lines that increment the error counter. -/
def countFileErrors : List (List Char) → Nat
  | [] => 0
  | l :: ls => (if fileLineError (goTrimSpace l) then 1 else 0) + countFileErrors ls

/-! ## The Payload Materializer -/

/-- Go `filepath.Ext`: the suffix beginning at the final dot, empty when
there is none (the names involved contain no path separator). -/
def goExt (name : List Char) : List Char :=
  let pre := name.reverse.takeWhile (fun c => c ≠ '.')
  if pre.length = name.length then [] else '.' :: pre.reverse

/-- Go `strings.TrimSuffix`. -/
def goTrimSuffix (s suffix : List Char) : List Char :=
  if suffix.isSuffixOf s then s.take (s.length - suffix.length) else s

/-- The candidate name `<base>_<counter><ext>` of the collision loop
(Server lines 534-536). -/
def nextCandidate (orig : List Char) (counter : Nat) : List Char :=
  let ext := goExt orig
  let base := goTrimSuffix orig ext
  base ++ ['_'] ++ decRepr counter ++ ext

/-- The collision loop of saveFile (Server lines 528-538), with the
filesystem as the list of existing names.  The loop runs until the
current candidate does not exist; fuel `|fs| + 1` is enough for every
configuration the claims touch. -/
def resolveNameLoop (fs : List (List Char)) (orig : List Char) :
    List Char → Nat → Nat → List Char
  | current, _, 0 => current
  | current, counter, fuel + 1 =>
    if current ∈ fs then resolveNameLoop fs orig (nextCandidate orig counter) (counter + 1) fuel
    else current

def goResolveFileName (fs : List (List Char)) (orig : List Char) : List Char :=
  resolveNameLoop fs orig orig 1 (fs.length + 1)

structure FileSaveResult where
  sizeWarning : Bool
  destName : List Char
  content : List Nat
deriving DecidableEq

/-- Server saveFile (lines 511-568): warn (never reject) on a size
mismatch, resolve a non-colliding destination name, write all buffered
bytes.  The advisory ZIP probe only prints and is not modelled; the
unused `actualSize` parameter of the source is kept. -/
def goSaveFile (fs : List (List Char)) (fileData : List Nat) (fileName : List Char)
    (expectedSize : Int) (actualSize : Int) : FileSaveResult :=
  { sizeWarning := decide ((fileData.length : Int) ≠ expectedSize)
    destName := goResolveFileName fs fileName
    content := fileData }

structure ScreenshotResult where
  createdFile : Option (List Char)
  writtenBytes : Option (List Nat)
  errors : Nat
  sizeWarning : Bool
deriving DecidableEq

/-- The 8-byte PNG signature that `image/png.Decode` requires before
anything else; used to instantiate the abstract PNG check on concrete
non-PNG bytes. -/
def pngSigGood (bs : List Nat) : Bool :=
  decide (bs.take 8 = [137, 80, 78, 71, 13, 10, 26, 10])

def screenshotFileName (ts : List Char) : List Char :=
  "screenshot_".toList ++ ts ++ ".png".toList

/-- Second half of saveScreenshot after a successful base64 decode
(lines 597-628): size warning, create the destination file, validate
PNG, and only on success write the bytes — the file is created before
the PNG check runs. -/
def goSaveScreenshotWrite (pngOk : List Nat → Bool) (ts : List Char)
    (decoded : List Nat) (expectedSize : Int) (errs : Nat) : ScreenshotResult :=
  let warn := decide ((decoded.length : Int) ≠ expectedSize)
  let fname := screenshotFileName ts
  if pngOk decoded then
    { createdFile := some fname, writtenBytes := some decoded, errors := errs,
      sizeWarning := warn }
  else
    { createdFile := some fname, writtenBytes := none, errors := errs + 1,
      sizeWarning := warn }

/-- Server saveScreenshot (lines 579-629): trim, base64 decode (with an
addPadding retry), then the write half above.  `png.Decode` is an
external library call, modelled by the parameter `pngOk`; `ts` is the
timestamp part of the destination name.  `errors` counts logged failure
messages (one per failed step). -/
def goSaveScreenshot (pngOk : List Nat → Bool) (ts : List Char)
    (data : List Char) (expectedSize : Int) : ScreenshotResult :=
  let d := goTrimSpace data
  match goDecodeStd d with
  | some decoded => goSaveScreenshotWrite pngOk ts decoded expectedSize 0
  | none =>
    match goDecodeStd (padTo4 d) with
    | some decoded => goSaveScreenshotWrite pngOk ts decoded expectedSize 1
    | none => { createdFile := none, writtenBytes := none, errors := 2, sizeWarning := false }

/-- Characters produced by the encoder are clean: in the alphabet or the
pad character, hence not whitespace, not a colon, not CR or LF. -/
def b64CharClean (c : Char) : Prop :=
  (∃ i : Fin 64, c = b64char i.val) ∨ c = '='

/-! ### Concrete scenario data used by the witnesses and counterexamples -/

def aBinChars : List Char := "a.bin".toList

/-- The first scenario line `FILE_TRANSFER_START:a.bin:6`. -/
def c2StartLine : List Char := "FILE_TRANSFER_START:a.bin:6".toList

/-- The chunk-line header `CHUNK:1:8:` of a 6-byte segment. -/
def c2ChunkHeader : List Char := "CHUNK:1:8:".toList

/-- The demultiplexer state right after `FILE_TRANSFER_START:a.bin:6`. -/
def recvFileState : DemuxState :=
  { demuxInit with isReceivingFile := true, fileName := aBinChars, expectedFileSize := 6 }

/-- A demultiplexer state in the middle of a screenshot frame. -/
def recvScreenshotState : DemuxState :=
  { demuxInit with
      isReceivingScreenshot := true
      expectedSize := 3
      screenshotData := "AAAA".toList }

/-- A chunk line whose payload was truncated by one character
(`AAAAAAAA` lost its last `A`). -/
def c4TruncatedLine : List Char := "CHUNK:1:8:AAAAAAA".toList

/-- A chunk line whose payload fails both decode attempts (`%` is in no
base64 alphabet). -/
def c4BadLine : List Char := "CHUNK:1:4:A%CD".toList

/-- A bare encoded payload with an embedded carriage return. -/
def c3CrPayload : List Char := ['A', 'B', '\r', 'C', 'D']

/-- A clean four-character payload (the encoding of `ABC`). -/
def c3CleanPayload : List Char := "QUJD".toList

def reportTxt : List Char := "report.txt".toList
def report1Txt : List Char := "report_1.txt".toList
def report2Txt : List Char := "report_2.txt".toList
def xBinChars : List Char := "x.bin".toList

/-- Accumulated screenshot text that decodes to the three zero bytes,
which are not a PNG. -/
def c7Data : List Char := "AAAA".toList

/-- Accumulated screenshot text that fails the first base64 decode and
decodes to two zero bytes only after the addPadding retry. -/
def c7DataShort : List Char := "AAA".toList

def c7Ts : List Char := "20251011".toList

/-- A good chunk line carrying the two bytes `[7, 8]`. -/
def c5GoodLine : List Char := "CHUNK:1:4:Bwg=".toList

/-- A legacy (headerless) chunk line carrying three zero bytes. -/
def c5LegacyLine : List Char := "AAAA".toList

/-- A screenshot start marker arriving mid-transfer. -/
def c9SsStartLine : List Char := "SCREENSHOT_START:99".toList

/-- A file start marker whose size field is not numeric. -/
def c10FileLine : List Char := "FILE_TRANSFER_START:a.bin:xyz".toList

/-- A screenshot start marker with too many colon fields. -/
def c10SsLine : List Char := "SCREENSHOT_START:1:2".toList

/-- A file name containing a colon. -/
def c10ColonName : List Char := "a:b".toList
def c10Szs : List Char := "6".toList

/-! ### Basic facts about the tables -/

theorem b64val_b64char : ∀ i : Fin 64, b64val (b64char i.val) = some i.val := by decide

theorem b64char_ne_pad : ∀ i : Fin 64, b64char i.val ≠ '=' := by decide

theorem b64val_pad : b64val '=' = none := by decide


theorem b64EncodeList_clean (bs : List Nat) (h : ∀ b ∈ bs, b < 256) :
    ∀ c ∈ b64EncodeList bs, b64CharClean c := by
  induction bs using b64EncodeList.induct with
  | case1 => intro c hc; simp [b64EncodeList] at hc
  | case2 b0 =>
    have hb0 : b0 < 256 := h b0 (by simp)
    intro c hc
    simp only [b64EncodeList, List.mem_cons, List.not_mem_nil, or_false] at hc
    rcases hc with h1 | h1 | h1 | h1
    · exact Or.inl ⟨⟨b0 / 4, by omega⟩, h1⟩
    · exact Or.inl ⟨⟨b0 % 4 * 16, by omega⟩, h1⟩
    · exact Or.inr h1
    · exact Or.inr h1
  | case3 b0 b1 =>
    have hb0 : b0 < 256 := h b0 (by simp)
    have hb1 : b1 < 256 := h b1 (by simp)
    intro c hc
    simp only [b64EncodeList, List.mem_cons, List.not_mem_nil, or_false] at hc
    rcases hc with h1 | h1 | h1 | h1
    · exact Or.inl ⟨⟨b0 / 4, by omega⟩, h1⟩
    · exact Or.inl ⟨⟨b0 % 4 * 16 + b1 / 16, by omega⟩, h1⟩
    · exact Or.inl ⟨⟨b1 % 16 * 4, by omega⟩, h1⟩
    · exact Or.inr h1
  | case4 b0 b1 b2 rest ih =>
    have hb0 : b0 < 256 := h b0 (by simp)
    have hb1 : b1 < 256 := h b1 (by simp)
    have hb2 : b2 < 256 := h b2 (by simp)
    intro c hc
    simp only [b64EncodeList, List.mem_cons] at hc
    rcases hc with h1 | h1 | h1 | h1 | h1
    · exact Or.inl ⟨⟨b0 / 4, by omega⟩, h1⟩
    · exact Or.inl ⟨⟨b0 % 4 * 16 + b1 / 16, by omega⟩, h1⟩
    · exact Or.inl ⟨⟨b1 % 16 * 4 + b2 / 64, by omega⟩, h1⟩
    · exact Or.inl ⟨⟨b2 % 64, by omega⟩, h1⟩
    · exact ih (fun b hb => h b (by simp [hb])) c h1

theorem b64char_not_crlf : ∀ i : Fin 64,
    ¬(b64char i.val = '\r' ∨ b64char i.val = '\n') := by decide

theorem b64EncodeList_length_mod (bs : List Nat) :
    (b64EncodeList bs).length % 4 = 0 := by
  induction bs using b64EncodeList.induct with
  | case1 => simp [b64EncodeList]
  | case2 b0 => simp [b64EncodeList]
  | case3 b0 b1 => simp [b64EncodeList]
  | case4 b0 b1 b2 rest ih => simp [b64EncodeList]; omega

/-- Round trip of the strict codec: decoding an encoding of bytes
returns exactly those bytes. -/
theorem b64DecodeStd_b64EncodeList (bs : List Nat) (h : ∀ b ∈ bs, b < 256) :
    b64DecodeStd (b64EncodeList bs) = some bs := by
  induction bs using b64EncodeList.induct with
  | case1 => simp [b64EncodeList, b64DecodeStd]
  | case2 b0 =>
    have hb0 : b0 < 256 := h b0 (by simp)
    have h1 := b64val_b64char ⟨b0 / 4, by omega⟩
    have h2 := b64val_b64char ⟨b0 % 4 * 16, by omega⟩
    simp only [b64EncodeList, b64DecodeStd, h1, h2]
    simp
    omega
  | case3 b0 b1 =>
    have hb0 : b0 < 256 := h b0 (by simp)
    have hb1 : b1 < 256 := h b1 (by simp)
    have h1 := b64val_b64char ⟨b0 / 4, by omega⟩
    have h2 := b64val_b64char ⟨b0 % 4 * 16 + b1 / 16, by omega⟩
    have h3 := b64val_b64char ⟨b1 % 16 * 4, by omega⟩
    have hne := b64char_ne_pad ⟨b1 % 16 * 4, by omega⟩
    simp only [b64EncodeList, b64DecodeStd, h1, h2, h3]
    simp [hne]
    omega
  | case4 b0 b1 b2 rest ih =>
    have hb0 : b0 < 256 := h b0 (by simp)
    have hb1 : b1 < 256 := h b1 (by simp)
    have hb2 : b2 < 256 := h b2 (by simp)
    have h1 := b64val_b64char ⟨b0 / 4, by omega⟩
    have h2 := b64val_b64char ⟨b0 % 4 * 16 + b1 / 16, by omega⟩
    have h3 := b64val_b64char ⟨b1 % 16 * 4 + b2 / 64, by omega⟩
    have h4 := b64val_b64char ⟨b2 % 64, by omega⟩
    have hne3 := b64char_ne_pad ⟨b1 % 16 * 4 + b2 / 64, by omega⟩
    have hne4 := b64char_ne_pad ⟨b2 % 64, by omega⟩
    have ihr := ih (fun b hb => h b (by simp [hb]))
    simp only [b64EncodeList, b64DecodeStd, h1, h2, h3, h4, ihr]
    simp [hne3, hne4]
    omega

/-- On input whose length is a multiple of 4 the raw (no-padding)
decoder can never succeed where the padded standard decoder failed: the
fallback in the receiver is extensionally dead code. -/
theorem b64DecodeRaw_none_of_std_none :
    ∀ cs : List Char, cs.length % 4 = 0 → b64DecodeStd cs = none → b64DecodeRaw cs = none := by
  have main : ∀ n, ∀ cs : List Char, cs.length ≤ n → cs.length % 4 = 0 →
      b64DecodeStd cs = none → b64DecodeRaw cs = none := by
    intro n
    induction n with
    | zero =>
      intro cs hle _ hstd
      have hnil : cs = [] := by cases cs <;> simp_all
      subst hnil
      simp [b64DecodeStd] at hstd
    | succ n ih =>
      intro cs hle hlen hstd
      rcases cs with _ | ⟨c1, _ | ⟨c2, _ | ⟨c3, _ | ⟨c4, rest⟩⟩⟩⟩
      · simp [b64DecodeStd] at hstd
      · simp at hlen
      · simp at hlen
      · simp at hlen
      · have hlrest : rest.length % 4 = 0 := by simp at hlen; omega
        have hlerest : rest.length ≤ n := by simp at hle; omega
        simp only [b64DecodeStd] at hstd
        simp only [b64DecodeRaw]
        cases hv1 : b64val c1 with
        | none => simp [hv1]
        | some a =>
          cases hv2 : b64val c2 with
          | none => simp [hv1, hv2]
          | some b =>
            simp only [hv1, hv2] at hstd
            by_cases h3 : c3 = '='
            · have hv3 : b64val c3 = none := by rw [h3]; exact b64val_pad
              simp [hv1, hv2, hv3]
            · simp only [if_neg h3] at hstd
              cases hv3 : b64val c3 with
              | none => simp [hv1, hv2, hv3]
              | some c =>
                simp only [hv3] at hstd
                by_cases h4 : c4 = '='
                · have hv4 : b64val c4 = none := by rw [h4]; exact b64val_pad
                  simp [hv1, hv2, hv3, hv4]
                · simp only [if_neg h4] at hstd
                  cases hv4 : b64val c4 with
                  | none => simp [hv1, hv2, hv3, hv4]
                  | some d =>
                    simp only [hv4] at hstd
                    cases hrest : b64DecodeStd rest with
                    | some bs => rw [hrest] at hstd; simp at hstd
                    | none =>
                      have hraw := ih rest hlerest hlrest hrest
                      simp [hv1, hv2, hv3, hv4, hraw]
  intro cs hlen hstd
  exact main cs.length cs le_rfl hlen hstd


/-! ### Lemmas about the Go string primitives -/

theorem dropWhile_eq_self_of (p : Char → Bool) (l : List Char)
    (h : ∀ c ∈ l, p c = false) : l.dropWhile p = l := by
  cases l with
  | nil => rfl
  | cons c cs => simp [List.dropWhile_cons, h c (by simp)]

theorem goTrimSpace_eq_self (l : List Char) (h : ∀ c ∈ l, isSpaceGo c = false) :
    goTrimSpace l = l := by
  unfold goTrimSpace
  rw [dropWhile_eq_self_of _ _ h,
      dropWhile_eq_self_of _ _ (fun c hc => h c (List.mem_reverse.mp hc)),
      List.reverse_reverse]

theorem dropWhile_dropWhile (p : Char → Bool) (l : List Char) :
    List.dropWhile p (List.dropWhile p l) = List.dropWhile p l := by
  induction l with
  | nil => rfl
  | cons c cs ih =>
    by_cases hc : p c = true
    · simp [List.dropWhile_cons, hc, ih]
    · simp at hc
      simp [List.dropWhile_cons, hc]

theorem head_dropWhile_false (p : Char → Bool) (l : List Char) (c : Char) (t : List Char)
    (h : List.dropWhile p l = c :: t) : p c = false := by
  induction l with
  | nil => simp at h
  | cons x xs ih =>
    by_cases hx : p x = true
    · simp [List.dropWhile_cons, hx] at h
      exact ih h
    · simp at hx
      simp [List.dropWhile_cons, hx] at h
      rw [← h.1]; exact hx

theorem goTrimSpace_idem (l : List Char) : goTrimSpace (goTrimSpace l) = goTrimSpace l := by
  unfold goTrimSpace
  have h1 : List.dropWhile isSpaceGo
      (((List.dropWhile isSpaceGo l).reverse.dropWhile isSpaceGo).reverse) =
      ((List.dropWhile isSpaceGo l).reverse.dropWhile isSpaceGo).reverse := by
    cases hr : ((List.dropWhile isSpaceGo l).reverse.dropWhile isSpaceGo).reverse with
    | nil => rfl
    | cons c t =>
      have hd : List.dropWhile isSpaceGo (List.dropWhile isSpaceGo l).reverse =
          (c :: t).reverse := by
        rw [← hr, List.reverse_reverse]
      have hm2 : (List.dropWhile isSpaceGo l).reverse =
          List.takeWhile isSpaceGo (List.dropWhile isSpaceGo l).reverse ++ (c :: t).reverse := by
        conv_lhs => rw [← @List.takeWhile_append_dropWhile _ isSpaceGo
          (List.dropWhile isSpaceGo l).reverse]
        rw [hd]
      have hm3 := congrArg List.reverse hm2
      rw [List.reverse_reverse, List.reverse_append, List.reverse_reverse] at hm3
      simp only [List.cons_append] at hm3
      have hc : isSpaceGo c = false := head_dropWhile_false _ _ _ _ hm3
      simp [List.dropWhile_cons, hc]
  rw [h1]
  congr 1
  rw [List.reverse_reverse]
  exact dropWhile_dropWhile _ _

theorem goStartsWith_append (p r : List Char) : goStartsWith (p ++ r) p = true := by
  induction p with
  | nil => cases r <;> rfl
  | cons c cs ih => simp [goStartsWith, ih]

theorem goStartsWith_iff (s p : List Char) :
    goStartsWith s p = true ↔ ∃ t, s = p ++ t := by
  constructor
  · intro h
    induction p generalizing s with
    | nil => exact ⟨s, rfl⟩
    | cons c cs ih =>
      cases s with
      | nil => simp [goStartsWith] at h
      | cons x xs =>
        simp only [goStartsWith, Bool.and_eq_true, beq_iff_eq] at h
        obtain ⟨t, ht⟩ := ih xs h.2
        exact ⟨t, by simp [h.1, ht]⟩
  · rintro ⟨t, rfl⟩
    exact goStartsWith_append p t

theorem goIndexCh_append (xs ys : List Char) (h : ':' ∉ xs) :
    goIndexCh (xs ++ ':' :: ys) ':' = (xs.length : Int) := by
  induction xs with
  | nil => simp [goIndexCh]
  | cons x xs ih =>
    have hx : ¬(x = ':') := fun e => h (by simp [e])
    have ihx := ih (fun hm => h (by simp [hm]))
    have hstep : goIndexCh ((x :: xs) ++ ':' :: ys) ':' =
        (if x = ':' then 0
         else if goIndexCh (xs ++ ':' :: ys) ':' < 0 then -1
         else goIndexCh (xs ++ ':' :: ys) ':' + 1) := rfl
    rw [hstep, if_neg hx, ihx]
    have hnonneg : ¬((xs.length : Int) < 0) := by omega
    rw [if_neg hnonneg]
    simp only [List.length_cons]
    push_cast
    omega

theorem chunkMarker_split : chunkMarker = "CHUNK".toList ++ [':'] := by decide

theorem parseChunkPayload_eval (resp : List Char) (i1 i2 i3 : Int) (d1 d2 res : List Char)
    (h1 : goIndexCh resp ':' = i1)
    (hd1 : resp.drop ((i1 + 1).toNat) = d1)
    (h2 : goIndexCh d1 ':' = i2)
    (hd2 : resp.drop ((i2 + i1 + 1 + 1).toNat) = d2)
    (h3 : goIndexCh d2 ':' = i3)
    (hres : resp.drop ((i3 + (i2 + i1 + 1) + 1 + 1).toNat) = res)
    (hg : i1 ≥ 0 ∧ i2 + i1 + 1 > i1 ∧ i3 + (i2 + i1 + 1) + 1 > i2 + i1 + 1) :
    parseChunkPayload resp = some res := by
  simp only [parseChunkPayload, h1, hd1, h2, hd2, h3, hres]
  rw [if_pos hg]

theorem parseChunkPayload_extract (a b p : List Char) (ha : ':' ∉ a) (hb : ':' ∉ b) :
    parseChunkPayload (chunkMarker ++ (a ++ ':' :: (b ++ ':' :: p))) = some p := by
  have hcm : ':' ∉ "CHUNK".toList := by decide
  have h1 : goIndexCh (chunkMarker ++ (a ++ ':' :: (b ++ ':' :: p))) ':' = (5 : Int) := by
    rw [chunkMarker_split, List.append_assoc]
    simpa using goIndexCh_append ("CHUNK".toList) (a ++ ':' :: (b ++ ':' :: p)) hcm
  have hdrop1 : (chunkMarker ++ (a ++ ':' :: (b ++ ':' :: p))).drop (((5 : Int) + 1).toNat) =
      a ++ ':' :: (b ++ ':' :: p) := by
    have hcl : chunkMarker.length = 6 := by decide
    have he : ((5 : Int) + 1).toNat = 6 := by decide
    rw [he, ← hcl, List.drop_left]
  have h2 : goIndexCh (a ++ ':' :: (b ++ ':' :: p)) ':' = (a.length : Int) :=
    goIndexCh_append a _ ha
  have hdrop2 : (chunkMarker ++ (a ++ ':' :: (b ++ ':' :: p))).drop
      (((a.length : Int) + 5 + 1 + 1).toNat) = b ++ ':' :: p := by
    have he : (((a.length : Int) + 5 + 1 + 1)).toNat = a.length + 7 := by omega
    have hre : chunkMarker ++ (a ++ ':' :: (b ++ ':' :: p)) =
        (chunkMarker ++ a ++ [':']) ++ (b ++ ':' :: p) := by simp
    have hl : (chunkMarker ++ a ++ [':']).length = a.length + 7 := by
      simp [chunkMarker_split]
    rw [he, hre, ← hl, List.drop_left]
  have h3 : goIndexCh (b ++ ':' :: p) ':' = (b.length : Int) := goIndexCh_append b _ hb
  have hdrop3 : (chunkMarker ++ (a ++ ':' :: (b ++ ':' :: p))).drop
      (((b.length : Int) + ((a.length : Int) + 5 + 1) + 1 + 1).toNat) = p := by
    have he : (((b.length : Int) + ((a.length : Int) + 5 + 1) + 1 + 1)).toNat =
        a.length + b.length + 8 := by omega
    have hre : chunkMarker ++ (a ++ ':' :: (b ++ ':' :: p)) =
        (chunkMarker ++ a ++ [':'] ++ b ++ [':']) ++ p := by simp
    have hl : (chunkMarker ++ a ++ [':'] ++ b ++ [':']).length =
        a.length + b.length + 8 := by
      simp [chunkMarker_split]
      omega
    rw [he, hre, ← hl, List.drop_left]
  exact parseChunkPayload_eval _ 5 a.length b.length _ _ _ h1 hdrop1 h2 hdrop2 h3 hdrop3
    ⟨by omega, by omega, by omega⟩

/-! ### Lemmas about decimal rendering -/

theorem decReprAux_digits (fuel : Nat) :
    ∀ n acc, (∀ c ∈ acc, c ∈ digitChars) → ∀ c ∈ decReprAux fuel n acc, c ∈ digitChars := by
  induction fuel with
  | zero => intro n acc h c hc; exact h c hc
  | succ fuel ih =>
    intro n acc h c hc
    have h10 : n % 10 < 10 := Nat.mod_lt _ (by norm_num)
    have hdig : ∀ m, m < 10 → Char.ofNat (48 + m) ∈ digitChars := by decide
    have hd := hdig _ h10
    simp only [decReprAux] at hc
    by_cases hn : n < 10
    · rw [if_pos hn] at hc
      rcases List.mem_cons.mp hc with h1 | h1
      · rw [h1]; exact hd
      · exact h c h1
    · rw [if_neg hn] at hc
      refine ih (n / 10) _ ?_ c hc
      intro x hx
      rcases List.mem_cons.mp hx with h1 | h1
      · rw [h1]; exact hd
      · exact h x h1

theorem decRepr_digits (n : Nat) : ∀ c ∈ decRepr n, c ∈ digitChars :=
  decReprAux_digits _ _ _ (by simp)

theorem digit_not_space : ∀ c ∈ digitChars, isSpaceGo c = false := by decide

theorem digit_ne_colon : ∀ c ∈ digitChars, c ≠ ':' := by decide

theorem decRepr_no_colon (n : Nat) : ':' ∉ decRepr n := by
  intro h
  exact digit_ne_colon ':' (decRepr_digits n ':' h) rfl

/-! ### The wire markers as explicit character lists -/

theorem chunkMarker_chars : chunkMarker = ['C', 'H', 'U', 'N', 'K', ':'] := by decide

theorem fileEndMarker_chars :
    fileEndMarker = ['F', 'I', 'L', 'E', '_', 'T', 'R', 'A', 'N', 'S', 'F', 'E', 'R',
      '_', 'E', 'N', 'D'] := by decide

theorem fileStartMarker_chars :
    fileStartMarker = ['F', 'I', 'L', 'E', '_', 'T', 'R', 'A', 'N', 'S', 'F', 'E', 'R',
      '_', 'S', 'T', 'A', 'R', 'T', ':'] := by decide

theorem screenshotStartMarker_chars :
    screenshotStartMarker = ['S', 'C', 'R', 'E', 'E', 'N', 'S', 'H', 'O', 'T', '_',
      'S', 'T', 'A', 'R', 'T', ':'] := by decide

theorem screenshotEndMarker_chars :
    screenshotEndMarker = ['S', 'C', 'R', 'E', 'E', 'N', 'S', 'H', 'O', 'T', '_',
      'E', 'N', 'D'] := by decide

theorem endResponseMarker_chars :
    endResponseMarker = ['-', '-', '-', 'E', 'N', 'D', '-', '-', '-'] := by decide

/-! ### Cleanliness of encoder output and the chunk-line round trip -/

theorem b64CharClean_props (c : Char) (h : b64CharClean c) :
    isSpaceGo c = false ∧ c ≠ ':' ∧ ¬(c = '\r' ∨ c = '\n') := by
  have hfin : ∀ i : Fin 64, isSpaceGo (b64char i.val) = false ∧ b64char i.val ≠ ':' ∧
      ¬(b64char i.val = '\r' ∨ b64char i.val = '\n') := by decide
  rcases h with ⟨i, rfl⟩ | rfl
  · exact hfin i
  · decide

theorem clientChunkLine_shape (seq : Nat) (seg : List Nat) :
    clientChunkLine seq seg = chunkMarker ++
      (decRepr seq ++ ':' ::
        (decRepr (b64EncodeList seg).length ++ ':' :: b64EncodeList seg)) := by
  simp [clientChunkLine]

theorem clientChunkLine_nospace (seq : Nat) (seg : List Nat) (hb : ∀ b ∈ seg, b < 256) :
    ∀ c ∈ clientChunkLine seq seg, isSpaceGo c = false := by
  intro c hc
  rw [clientChunkLine_shape] at hc
  simp only [List.mem_append, List.mem_cons] at hc
  rcases hc with h1 | h1 | h1 | h1 | h1 | h1
  · exact (by decide : ∀ c ∈ chunkMarker, isSpaceGo c = false) c h1
  · exact digit_not_space c (decRepr_digits seq c h1)
  · rw [h1]; decide
  · exact digit_not_space c (decRepr_digits _ c h1)
  · rw [h1]; decide
  · exact (b64CharClean_props c (b64EncodeList_clean seg hb c h1)).1

theorem goTrimSpace_clientChunkLine (seq : Nat) (seg : List Nat) (hb : ∀ b ∈ seg, b < 256) :
    goTrimSpace (clientChunkLine seq seg) = clientChunkLine seq seg :=
  goTrimSpace_eq_self _ (clientChunkLine_nospace seq seg hb)

theorem clientChunkLine_ne_end (seq : Nat) (seg : List Nat) :
    clientChunkLine seq seg ≠ fileEndMarker := by
  intro h
  have h2 := congrArg (fun l => List.head? l) h
  rw [clientChunkLine_shape, chunkMarker_chars, fileEndMarker_chars] at h2
  simp at h2

theorem clientChunkLine_ne_nil (seq : Nat) (seg : List Nat) :
    clientChunkLine seq seg ≠ [] := by
  rw [clientChunkLine_shape, chunkMarker_chars]
  simp

theorem clientChunkLine_startsWith (seq : Nat) (seg : List Nat) :
    goStartsWith (clientChunkLine seq seg) chunkMarker = true := by
  rw [clientChunkLine_shape]
  exact goStartsWith_append _ _

theorem parseChunkPayload_clientChunkLine (seq : Nat) (seg : List Nat) :
    parseChunkPayload (clientChunkLine seq seg) = some (b64EncodeList seg) := by
  rw [clientChunkLine_shape]
  exact parseChunkPayload_extract _ _ _ (decRepr_no_colon seq) (decRepr_no_colon _)

theorem filter_crlf_encode (seg : List Nat) (hb : ∀ b ∈ seg, b < 256) :
    (b64EncodeList seg).filter (fun c => ¬(c = '\r' ∨ c = '\n')) = b64EncodeList seg := by
  rw [List.filter_eq_self]
  intro c hc
  simpa using (b64CharClean_props c (b64EncodeList_clean seg hb c hc)).2.2

theorem stripNl_encode (seg : List Nat) (hb : ∀ b ∈ seg, b < 256) :
    stripNl (b64EncodeList seg) = b64EncodeList seg :=
  filter_crlf_encode seg hb

theorem cleanBase64_encode (seg : List Nat) (hb : ∀ b ∈ seg, b < 256) :
    cleanBase64 (b64EncodeList seg) = b64EncodeList seg := by
  unfold cleanBase64
  rw [goTrimSpace_eq_self _ (fun c hc => (b64CharClean_props c
    (b64EncodeList_clean seg hb c hc)).1)]
  exact filter_crlf_encode seg hb

theorem padTo4_encode (seg : List Nat) : padTo4 (b64EncodeList seg) = b64EncodeList seg := by
  unfold padTo4
  rw [if_pos (b64EncodeList_length_mod seg)]

theorem decodeHeaderedPayload_encode (seg : List Nat) (hb : ∀ b ∈ seg, b < 256) :
    decodeHeaderedPayload (b64EncodeList seg) = some seg := by
  have h2 : goDecodeStd (b64EncodeList seg) = some seg := by
    unfold goDecodeStd
    rw [stripNl_encode seg hb, b64DecodeStd_b64EncodeList seg hb]
  simp only [decodeHeaderedPayload, cleanBase64_encode seg hb, padTo4_encode, h2]

theorem handleFileLine_chunkLine (st : DemuxState) (seq : Nat) (seg : List Nat)
    (hb : ∀ b ∈ seg, b < 256) :
    handleFileLine st (clientChunkLine seq seg) =
      ({ st with chunkCount := st.chunkCount + 1, fileData := st.fileData ++ seg,
                 totalBytes := st.totalBytes + (seg.length : Int) }, []) := by
  unfold handleFileLine
  rw [if_neg (clientChunkLine_ne_end seq seg), if_neg (clientChunkLine_ne_nil seq seg)]
  simp [clientChunkLine_startsWith, parseChunkPayload_clientChunkLine,
    decodeHeaderedPayload_encode seg hb]

theorem processLine_file (st : DemuxState) (raw : List Char)
    (hf : st.isReceivingFile = true) :
    processLine st raw = handleFileLine st (goTrimSpace raw) := by
  simp [processLine, hf]

theorem processLine_chunkLine (st : DemuxState) (hf : st.isReceivingFile = true)
    (seq : Nat) (seg : List Nat) (hb : ∀ b ∈ seg, b < 256) :
    processLine st (clientChunkLine seq seg) =
      ({ st with chunkCount := st.chunkCount + 1, fileData := st.fileData ++ seg,
                 totalBytes := st.totalBytes + (seg.length : Int) }, []) := by
  rw [processLine_file st _ hf, goTrimSpace_clientChunkLine seq seg hb,
    handleFileLine_chunkLine st seq seg hb]

/-! ### The per-line step of the file frame -/

theorem handleFileLine_eq (st : DemuxState) (response : List Char)
    (hne : response ≠ fileEndMarker) :
    handleFileLine st response =
      ({ st with
          chunkCount := st.chunkCount + (if response = [] then 0 else 1),
          errorCount := st.errorCount + (if fileLineError response then 1 else 0),
          fileData := st.fileData ++ fileLineSegment response,
          totalBytes := st.totalBytes + ((fileLineSegment response).length : Int) }, []) := by
  by_cases hnil : response = []
  · subst hnil
    simp [handleFileLine, fileLineError, fileLineSegment, hne]
  · by_cases hchunk : goStartsWith response chunkMarker = true
    · cases hp : parseChunkPayload response with
      | none =>
        simp [handleFileLine, fileLineError, fileLineSegment, hne, hnil, hchunk, hp]
      | some payload =>
        cases hd : decodeHeaderedPayload payload with
        | none =>
          simp [handleFileLine, fileLineError, fileLineSegment, hne, hnil, hchunk, hp, hd]
        | some decoded =>
          simp [handleFileLine, fileLineError, fileLineSegment, hne, hnil, hchunk, hp, hd]
    · have hchunkF : goStartsWith response chunkMarker = false := by
        simpa using hchunk
      by_cases htr : goTrimSpace response = []
      · simp [handleFileLine, fileLineError, fileLineSegment, hne, hnil, hchunkF, htr]
      · cases hd : decodeLegacyPayload response with
        | none =>
          simp [handleFileLine, fileLineError, fileLineSegment, hne, hnil, hchunkF, htr, hd]
        | some decoded =>
          simp [handleFileLine, fileLineError, fileLineSegment, hne, hnil, hchunkF, htr, hd]

/-! ### The read loop: unfolding and file-frame accumulation -/

theorem processLines_cons (st : DemuxState) (l : List Char) (ls : List (List Char)) :
    processLines st (l :: ls) =
      ((processLines (processLine st l).1 ls).1,
        (processLine st l).2 ++ (processLines (processLine st l).1 ls).2) := rfl

theorem processLines_file_acc (lines : List (List Char)) : ∀ st : DemuxState,
    st.isReceivingFile = true →
    (∀ l ∈ lines, goTrimSpace l ≠ fileEndMarker) →
    (processLines st lines).1.isReceivingFile = true ∧
    (processLines st lines).1.isReceivingScreenshot = st.isReceivingScreenshot ∧
    (processLines st lines).1.fileName = st.fileName ∧
    (processLines st lines).1.expectedFileSize = st.expectedFileSize ∧
    (processLines st lines).1.fileData = st.fileData ++ concatSegs lines ∧
    (processLines st lines).1.errorCount = st.errorCount + (countFileErrors lines : Int) ∧
    (processLines st lines).1.totalBytes = st.totalBytes + (sumSegLens lines : Int) ∧
    (processLines st lines).2 = [] := by
  induction lines with
  | nil =>
    intro st hf _
    simp [processLines, concatSegs, countFileErrors, sumSegLens, hf]
  | cons l ls ih =>
    intro st hf hne
    have hnel : goTrimSpace l ≠ fileEndMarker := hne l (by simp)
    have hstep : processLine st l =
        ({ st with
            chunkCount := st.chunkCount + (if goTrimSpace l = [] then 0 else 1),
            errorCount := st.errorCount + (if fileLineError (goTrimSpace l) then 1 else 0),
            fileData := st.fileData ++ fileLineSegment (goTrimSpace l),
            totalBytes := st.totalBytes +
              ((fileLineSegment (goTrimSpace l)).length : Int) }, []) := by
      rw [processLine_file st l hf, handleFileLine_eq st (goTrimSpace l) hnel]
    obtain ⟨k1, k2, k3, k4, k5, k6, k7, k8⟩ := ih ({ st with
        chunkCount := st.chunkCount + (if goTrimSpace l = [] then 0 else 1),
        errorCount := st.errorCount + (if fileLineError (goTrimSpace l) then 1 else 0),
        fileData := st.fileData ++ fileLineSegment (goTrimSpace l),
        totalBytes := st.totalBytes + ((fileLineSegment (goTrimSpace l)).length : Int) })
      (by simpa using hf) (fun x hx => hne x (by simp [hx]))
    rw [processLines_cons, hstep]
    refine ⟨k1, ?_, ?_, ?_, ?_, ?_, ?_, ?_⟩
    · rw [k2]
    · rw [k3]
    · rw [k4]
    · rw [k5]
      simp [concatSegs, List.append_assoc]
    · rw [k6]
      simp only [countFileErrors]
      rcases hfe : fileLineError (goTrimSpace l) <;> simp [hfe] <;> push_cast <;> ring
    · rw [k7]
      simp only [sumSegLens]
      push_cast
      ring
    · simp [k8]

/-! ### Flag preservation and mutual exclusion of the two modes -/

theorem handleFileLine_ssFlag (st : DemuxState) (r : List Char) :
    (handleFileLine st r).1.isReceivingScreenshot = st.isReceivingScreenshot := by
  by_cases hend : r = fileEndMarker
  · simp [handleFileLine, hend]
  · rw [handleFileLine_eq st r hend]

theorem handleScreenshotLine_fileFlag (st : DemuxState) (r : List Char) :
    (handleScreenshotLine st r).1.isReceivingFile = st.isReceivingFile := by
  unfold handleScreenshotLine
  by_cases h : r = screenshotEndMarker <;> simp [h]

theorem processLine_excl (st : DemuxState) (raw : List Char)
    (h : st.isReceivingFile = false ∨ st.isReceivingScreenshot = false) :
    (processLine st raw).1.isReceivingFile = false ∨
      (processLine st raw).1.isReceivingScreenshot = false := by
  by_cases hf : st.isReceivingFile = true
  · have hs : st.isReceivingScreenshot = false := by
      rcases h with h | h
      · rw [hf] at h; exact absurd h (by simp)
      · exact h
    right
    rw [processLine_file st raw hf, handleFileLine_ssFlag]
    exact hs
  · have hf2 : st.isReceivingFile = false := by simpa using hf
    by_cases hs : st.isReceivingScreenshot = true
    · left
      have hpl : processLine st raw = handleScreenshotLine st (goTrimSpace raw) := by
        simp [processLine, hf2, hs]
      rw [hpl, handleScreenshotLine_fileFlag]
      exact hf2
    · have hs2 : st.isReceivingScreenshot = false := by simpa using hs
      unfold processLine idleAfterFileCheck idleTail
      simp only [hf2, hs2]
      repeat' split <;> try simp_all

theorem processLines_excl (lines : List (List Char)) : ∀ st : DemuxState,
    (st.isReceivingFile = false ∨ st.isReceivingScreenshot = false) →
    ((processLines st lines).1.isReceivingFile = false ∨
      (processLines st lines).1.isReceivingScreenshot = false) := by
  induction lines with
  | nil => intro st h; simpa [processLines] using h
  | cons l ls ih =>
    intro st h
    rw [processLines_cons]
    exact ih _ (processLine_excl st l h)

/-! ### Start markers are never end markers -/

theorem startMarker_facts (r : List Char)
    (h : goStartsWith r fileStartMarker = true ∨
         goStartsWith r screenshotStartMarker = true) :
    r ≠ fileEndMarker ∧ r ≠ [] ∧ r ≠ screenshotEndMarker := by
  rcases h with h | h <;> obtain ⟨t, rfl⟩ := (goStartsWith_iff _ _).mp h
  · refine ⟨?_, ?_, ?_⟩ <;>
      rw [fileStartMarker_chars] <;> intro hc
    · rw [fileEndMarker_chars] at hc; simp at hc
    · simp at hc
    · rw [screenshotEndMarker_chars] at hc; simp at hc
  · refine ⟨?_, ?_, ?_⟩ <;>
      rw [screenshotStartMarker_chars] <;> intro hc
    · rw [fileEndMarker_chars] at hc; simp at hc
    · simp at hc
    · rw [screenshotEndMarker_chars] at hc; simp at hc

/-! ### Colon-splitting lemmas for the start-marker guards -/

theorem splitFirstColon_append_left (xs ys : List Char) (h : ':' ∉ xs) :
    splitFirstColon (xs ++ ':' :: ys) = some (xs, ys) := by
  induction xs with
  | nil => simp [splitFirstColon]
  | cons x xs ih =>
    have hx : ¬x = ':' := fun e => h (by simp [e])
    have ih2 := ih (fun m => h (by simp [m]))
    simp [splitFirstColon, hx, ih2]

theorem splitFirstColon_extend (s ys : List Char) :
    ∀ a b, splitFirstColon s = some (a, b) →
    splitFirstColon (s ++ ys) = some (a, b ++ ys) := by
  induction s with
  | nil => intro a b h; simp [splitFirstColon] at h
  | cons c rest ih =>
    intro a b h
    by_cases hc : c = ':'
    · rw [hc] at h ⊢
      simp [splitFirstColon] at h ⊢
      exact ⟨h.1, by rw [← h.2]⟩
    · simp only [List.cons_append, splitFirstColon, if_neg hc] at h ⊢
      cases hr : splitFirstColon rest with
      | none => rw [hr] at h; simp at h
      | some p =>
        rw [hr] at h
        simp at h
        simp only [List.append_eq]
        rw [ih p.1 p.2 (by rw [hr])]
        simp [← h.1, ← h.2]

theorem splitFirstColon_of_mem (s : List Char) (h : ':' ∈ s) :
    ∃ a b, splitFirstColon s = some (a, b) := by
  induction s with
  | nil => simp at h
  | cons c rest ih =>
    by_cases hc : c = ':'
    · exact ⟨[], rest, by simp [splitFirstColon, hc]⟩
    · have hm : ':' ∈ rest := by
        rcases List.mem_cons.mp h with h1 | h1
        · exact absurd h1.symm hc
        · exact h1
      obtain ⟨a, b, hab⟩ := ih hm
      exact ⟨c :: a, b, by simp [splitFirstColon, hc, hab]⟩

theorem digitsToNatAux_colon (l : List Char) : ∀ acc, ':' ∈ l →
    digitsToNatAux acc l = none := by
  induction l with
  | nil => intro acc h; simp at h
  | cons c rest ih =>
    intro acc h
    by_cases hc : c = ':'
    · have : digitVal c = none := by rw [hc]; decide
      simp [digitsToNatAux, this]
    · have hm : ':' ∈ rest := by
        rcases List.mem_cons.mp h with h1 | h1
        · exact absurd h1.symm hc
        · exact h1
      unfold digitsToNatAux
      cases hd : digitVal c with
      | none => rfl
      | some d => exact ih _ hm

theorem digitsToNat_colon (l : List Char) (h : ':' ∈ l) : digitsToNat l = none := by
  cases l with
  | nil => simp at h
  | cons c rest => exact digitsToNatAux_colon _ _ h

theorem goParseInt64_colon (s : List Char) (h : ':' ∈ s) : goParseInt64 s = none := by
  cases s with
  | nil => simp at h
  | cons c rest =>
    by_cases hplus : c = '+'
    · have hm : ':' ∈ rest := by
        rcases List.mem_cons.mp h with h1 | h1
        · rw [hplus] at h1; exact absurd h1 (by decide)
        · exact h1
      simp only [goParseInt64, if_pos hplus, digitsToNat_colon rest hm]
    · by_cases hminus : c = '-'
      · have hm : ':' ∈ rest := by
          rcases List.mem_cons.mp h with h1 | h1
          · rw [hminus] at h1; exact absurd h1 (by decide)
          · exact h1
        simp only [goParseInt64, if_neg hplus, if_pos hminus, digitsToNat_colon rest hm]
      · simp only [goParseInt64, if_neg hplus, if_neg hminus, digitsToNat_colon _ h]

/-! ### Remaining helper lemmas -/

theorem b64EncodeList_length (bs : List Nat) :
    (b64EncodeList bs).length = 4 * ((bs.length + 2) / 3) := by
  induction bs using b64EncodeList.induct with
  | case1 => simp [b64EncodeList]
  | case2 b0 => simp [b64EncodeList]
  | case3 b0 b1 => simp [b64EncodeList]
  | case4 b0 b1 b2 rest ih => simp [b64EncodeList, ih]; omega

theorem concatSegs_length (ls : List (List Char)) :
    (concatSegs ls).length = sumSegLens ls := by
  induction ls with
  | nil => rfl
  | cons l ls ih => simp [concatSegs, sumSegLens, ih]

theorem padTo4_mod (s : List Char) : (padTo4 s).length % 4 = 0 := by
  unfold padTo4
  by_cases h : s.length % 4 = 0
  · rw [if_pos h]; exact h
  · rw [if_neg h]; simp; omega

theorem goTrimSpace_subset (l : List Char) : ∀ c ∈ goTrimSpace l, c ∈ l := by
  intro c hc
  unfold goTrimSpace at hc
  have h1 := List.mem_reverse.mp hc
  have h2 := (List.dropWhile_sublist _).subset h1
  have h3 := List.mem_reverse.mp h2
  exact (List.dropWhile_sublist _).subset h3

theorem fileStartMarker_split :
    fileStartMarker = "FILE_TRANSFER_START".toList ++ [':'] := by decide

/-! ## The claims -/

/-- Claim C1: for every byte segment, including segments of length 0,
length 1 and lengths that are not a multiple of 3, encoding the segment
as a `CHUNK:<seq>:<encodedLen>:` line (Client sendFileToServer) and
then decoding the line with the receiver's chunk-decode procedure
(Server readClientResponse, headered chunk path) yields exactly the
original bytes. -/
theorem c1_chunk_codec_roundtrip (seq : Nat) (seg : List Nat) (hb : ∀ b ∈ seg, b < 256) :
    serverChunkDecodeLine (clientChunkLine seq seg) = some seg := by
  simp only [serverChunkDecodeLine, goTrimSpace_clientChunkLine seq seg hb,
    clientChunkLine_startsWith, parseChunkPayload_clientChunkLine,
    decodeHeaderedPayload_encode seg hb, if_true]

/-- Witness for C1 at segment lengths 0, 1 and 4. -/
theorem c1_chunk_codec_roundtrip_witness :
    serverChunkDecodeLine (clientChunkLine 1 []) = some [] ∧
    serverChunkDecodeLine (clientChunkLine 2 [255]) = some [255] ∧
    serverChunkDecodeLine (clientChunkLine 3 [10, 20, 30, 40]) = some [10, 20, 30, 40] :=
  ⟨c1_chunk_codec_roundtrip 1 [] (by decide),
   c1_chunk_codec_roundtrip 2 [255] (by decide),
   c1_chunk_codec_roundtrip 3 [10, 20, 30, 40] (by decide)⟩

/-- Claim C3 counterexample: the legacy chunk-decode path does not
follow the spec's stated policy.  On the payload `AB<CR>CD` the policy
(strip embedded CR/LF, then pad) decodes successfully, and so does the
headered path, but the legacy path pads before the decoder drops the
CR, yielding a 7-character quantum stream and a decode error. -/
theorem c3_legacy_policy_counterexample :
    decodeLegacyPayload c3CrPayload = none ∧
    specChunkDecodePolicy c3CrPayload = some [0, 16, 131] ∧
    decodeHeaderedPayload c3CrPayload = some [0, 16, 131] := by decide

/-- Claim C3 amended: the headered path follows the spec's decode
policy exactly (including the no-padding fallback, which can never
succeed after padding, so failing the standard decode alone already
signals the error); the legacy path matches the policy for every
payload without embedded CR/LF — it differs only when an embedded
CR/LF makes the pre-padding length differ. -/
theorem c3_decode_policy_amended (raw : List Char) :
    decodeHeaderedPayload raw = specChunkDecodePolicy raw ∧
    ('\r' ∉ raw → '\n' ∉ raw → decodeLegacyPayload raw = specChunkDecodePolicy raw) := by
  constructor
  · rfl
  · intro hr hn
    have hclean : cleanBase64 raw = goTrimSpace raw := by
      unfold cleanBase64
      rw [List.filter_eq_self.mpr]
      intro c hc
      have hcr : c ≠ '\r' := fun e => hr (e ▸ goTrimSpace_subset raw c hc)
      have hcn : c ≠ '\n' := fun e => hn (e ▸ goTrimSpace_subset raw c hc)
      simp [hcr, hcn]
    have hstrip : stripNl (padTo4 (goTrimSpace raw)) = padTo4 (goTrimSpace raw) := by
      unfold stripNl
      rw [List.filter_eq_self.mpr]
      intro c hc
      unfold padTo4 at hc
      have hmem : c ∈ goTrimSpace raw ∨ c = '=' := by
        by_cases h4 : (goTrimSpace raw).length % 4 = 0
        · rw [if_pos h4] at hc; exact Or.inl hc
        · rw [if_neg h4] at hc
          rcases List.mem_append.mp hc with h | h
          · exact Or.inl h
          · exact Or.inr (List.eq_of_mem_replicate h)
      have hcr : c ≠ '\r' := by
        rcases hmem with h | h
        · exact fun e => hr (e ▸ goTrimSpace_subset raw c h)
        · rw [h]; decide
      have hcn : c ≠ '\n' := by
        rcases hmem with h | h
        · exact fun e => hn (e ▸ goTrimSpace_subset raw c h)
        · rw [h]; decide
      simp [hcr, hcn]
    unfold decodeLegacyPayload specChunkDecodePolicy
    rw [hclean]
    cases hstd : goDecodeStd (padTo4 (goTrimSpace raw)) with
    | some bs => simp [hstd]
    | none =>
      have hlen : (stripNl (padTo4 (goTrimSpace raw))).length % 4 = 0 := by
        rw [hstrip]; exact padTo4_mod _
      have hstd2 : b64DecodeStd (stripNl (padTo4 (goTrimSpace raw))) = none := hstd
      have hraw := b64DecodeRaw_none_of_std_none _ hlen hstd2
      simp [hstd, goDecodeRaw, hraw]

/-- Witness for the C3 amended claim on a clean payload. -/
theorem c3_decode_policy_amended_witness :
    decodeHeaderedPayload c3CleanPayload = specChunkDecodePolicy c3CleanPayload ∧
    decodeLegacyPayload c3CleanPayload = specChunkDecodePolicy c3CleanPayload :=
  ⟨(c3_decode_policy_amended c3CleanPayload).1,
   (c3_decode_policy_amended c3CleanPayload).2 (by decide) (by decide)⟩

/-- Claim C4 counterexample: a chunk whose payload was truncated by one
character does NOT yield a decode error — the padding repair turns the
7 remaining characters into valid base64, the error counter stays at 0
and five bytes are appended to the Reassembly Buffer. -/
theorem c4_truncation_counterexample :
    (processLine recvFileState c4TruncatedLine).1.errorCount = 0 ∧
    (processLine recvFileState c4TruncatedLine).1.fileData = [0, 0, 0, 0, 0] ∧
    recvFileState.fileData = [] := by decide

/-- Claim C4 amended: a headered chunk line whose cleaned, padded
payload fails both base64 decode attempts increments the error counter
and leaves the accumulated bytes and byte count unchanged; a payload
truncated by one character is instead repaired by the padding step and
decodes to a shorter byte run. -/
theorem c4_undecodable_chunk_amended (st : DemuxState) (raw payload : List Char)
    (hf : st.isReceivingFile = true)
    (hch : goStartsWith (goTrimSpace raw) chunkMarker = true)
    (hp : parseChunkPayload (goTrimSpace raw) = some payload)
    (hd : decodeHeaderedPayload payload = none) :
    processLine st raw =
      ({ st with chunkCount := st.chunkCount + 1, errorCount := st.errorCount + 1 }, []) := by
  rw [processLine_file st raw hf]
  have hne : goTrimSpace raw ≠ fileEndMarker := by
    intro e; rw [e] at hch; exact absurd hch (by decide)
  have hnil : goTrimSpace raw ≠ [] := by
    intro e; rw [e] at hch; exact absurd hch (by decide)
  unfold handleFileLine
  rw [if_neg hne, if_neg hnil]
  simp [hch, hp, hd]

/-- Witness for the C4 amended claim: an undecodable chunk payload. -/
theorem c4_undecodable_chunk_amended_witness :
    processLine recvFileState c4BadLine =
      ({ recvFileState with
          chunkCount := recvFileState.chunkCount + 1,
          errorCount := recvFileState.errorCount + 1 }, []) :=
  c4_undecodable_chunk_amended recvFileState c4BadLine ("A%CD".toList)
    (by decide) (by decide) (by decide) (by decide)

/-- Claim C6: whenever the declared size differs from the reassembled
length, saveFile still records the full byte content (never discarding
bytes or rejecting the artifact) and raises the size warning. -/
theorem c6_size_mismatch_still_saves (fs : List (List Char)) (data : List Nat)
    (name : List Char) (s a : Int) (h : s ≠ (data.length : Int)) :
    (goSaveFile fs data name s a).content = data ∧
    (goSaveFile fs data name s a).sizeWarning = true := by
  refine ⟨rfl, ?_⟩
  unfold goSaveFile
  simp only [decide_eq_true_eq]
  omega

/-- Witness for C6: two bytes declared as five. -/
theorem c6_size_mismatch_still_saves_witness :
    (goSaveFile [] [1, 2] xBinChars 5 2).content = [1, 2] ∧
    (goSaveFile [] [1, 2] xBinChars 5 2).sizeWarning = true :=
  c6_size_mismatch_still_saves [] [1, 2] xBinChars 5 2 (by decide)

/-- Claim C8: the collision loop of saveFile appends an incrementing
numeric suffix before the extension: with `report.txt` on disk the
destination is `report_1.txt`, with both `report.txt` and
`report_1.txt` on disk it is `report_2.txt` (and with no collision the
name is kept). -/
theorem c8_collision_suffix :
    (goSaveFile [reportTxt] [] reportTxt 0 0).destName = report1Txt ∧
    (goSaveFile [reportTxt, report1Txt] [] reportTxt 0 0).destName = report2Txt ∧
    (goSaveFile [] [] reportTxt 0 0).destName = reportTxt := by decide

/-- Claim C2: feeding the demultiplexer, from the Idle state, the lines
`FILE_TRANSFER_START:a.bin:6`, then `CHUNK:1:8:<base64 of the 6
bytes>`, then `FILE_TRANSFER_END` emits exactly one saved-file event
carrying the name `a.bin` and exactly the 6 original bytes, the
materializer writes them under `a.bin` with no size warning, and the
demultiplexer ends back in Idle (the final state equals the initial one
except for the recorded name and declared size, which are not cleared
by the source). -/
theorem c2_start_chunk_end_scenario (seg : List Nat) (hlen : seg.length = 6)
    (hb : ∀ b ∈ seg, b < 256) :
    (b64EncodeList seg).length = 8 ∧
    clientChunkLine 1 seg = c2ChunkHeader ++ b64EncodeList seg ∧
    processLines demuxInit
        [c2StartLine, c2ChunkHeader ++ b64EncodeList seg, fileEndMarker] =
      ({ demuxInit with expectedFileSize := 6, fileName := aBinChars },
       [DemuxEvent.savedFile seg aBinChars 6 6]) ∧
    goSaveFile [] seg aBinChars 6 6 =
      { sizeWarning := false, destName := aBinChars, content := seg } := by
  have h8 : (b64EncodeList seg).length = 8 := by
    rw [b64EncodeList_length, hlen]
  have hline : clientChunkLine 1 seg = c2ChunkHeader ++ b64EncodeList seg := by
    simp only [clientChunkLine, h8]
    rw [show chunkMarker ++ decRepr 1 ++ [':'] ++ decRepr 8 ++ [':'] = c2ChunkHeader
      by decide]
  have step1 : processLine demuxInit c2StartLine = (recvFileState, []) := by decide
  have step2 : processLine recvFileState (c2ChunkHeader ++ b64EncodeList seg) =
      ({ recvFileState with chunkCount := 1, fileData := seg, totalBytes := 6 }, []) := by
    rw [← hline, processLine_chunkLine recvFileState rfl 1 seg hb]
    simp [recvFileState, demuxInit, hlen]
  have step3 : processLine
      ({ recvFileState with chunkCount := 1, fileData := seg, totalBytes := 6 })
      fileEndMarker =
      ({ demuxInit with expectedFileSize := 6, fileName := aBinChars },
       [DemuxEvent.savedFile seg aBinChars 6 6]) := by
    rw [processLine_file _ _ rfl, goTrimSpace_eq_self fileEndMarker (by decide)]
    unfold handleFileLine
    rw [if_pos rfl]
    simp [recvFileState, demuxInit]
  refine ⟨h8, hline, ?_, ?_⟩
  · simp only [processLines_cons, processLines, step1, step2, step3,
      List.nil_append, List.append_nil]
  · simp [goSaveFile, goResolveFileName, resolveNameLoop, hlen]

/-- Witness for C2 with the bytes 1..6. -/
theorem c2_start_chunk_end_scenario_witness :
    (b64EncodeList [1, 2, 3, 4, 5, 6]).length = 8 ∧
    clientChunkLine 1 [1, 2, 3, 4, 5, 6] =
      c2ChunkHeader ++ b64EncodeList [1, 2, 3, 4, 5, 6] ∧
    processLines demuxInit
        [c2StartLine, c2ChunkHeader ++ b64EncodeList [1, 2, 3, 4, 5, 6], fileEndMarker] =
      ({ demuxInit with expectedFileSize := 6, fileName := aBinChars },
       [DemuxEvent.savedFile [1, 2, 3, 4, 5, 6] aBinChars 6 6]) ∧
    goSaveFile [] [1, 2, 3, 4, 5, 6] aBinChars 6 6 =
      { sizeWarning := false, destName := aBinChars, content := [1, 2, 3, 4, 5, 6] } :=
  c2_start_chunk_end_scenario [1, 2, 3, 4, 5, 6] (by decide) (by decide)

/-- Claim C5: over any in-order run of file-frame lines containing no
end marker, the frame is never aborted and emits nothing, previously
accumulated bytes stay as a prefix and the buffer equals them plus the
concatenation of the successfully decoded segments, the error counter
grows by exactly the number of malformed lines, the byte counter never
decreases, and the final reassembled length is the old length plus the
sum of the decoded lengths of the successful chunks. -/
theorem c5_file_frame_invariants (st : DemuxState) (lines : List (List Char))
    (hf : st.isReceivingFile = true)
    (hne : ∀ l ∈ lines, goTrimSpace l ≠ fileEndMarker) :
    (processLines st lines).1.isReceivingFile = true ∧
    (processLines st lines).2 = [] ∧
    (processLines st lines).1.fileData = st.fileData ++ concatSegs lines ∧
    (processLines st lines).1.errorCount =
      st.errorCount + (countFileErrors lines : Int) ∧
    st.totalBytes ≤ (processLines st lines).1.totalBytes ∧
    ((processLines st lines).1.fileData.length : Int) =
      (st.fileData.length : Int) + (sumSegLens lines : Int) := by
  obtain ⟨k1, k2, k3, k4, k5, k6, k7, k8⟩ := processLines_file_acc lines st hf hne
  refine ⟨k1, k8, k5, k6, ?_, ?_⟩
  · rw [k7]
    have h0 : (0 : Int) ≤ (sumSegLens lines : Int) := by positivity
    omega
  · rw [k5, List.length_append, concatSegs_length]
    push_cast
    ring

/-- Witness for C5: a good chunk, an undecodable chunk, a legacy chunk. -/
theorem c5_file_frame_invariants_witness :
    (processLines recvFileState [c5GoodLine, c4BadLine, c5LegacyLine]).1.isReceivingFile =
      true ∧
    (processLines recvFileState [c5GoodLine, c4BadLine, c5LegacyLine]).2 = [] ∧
    (processLines recvFileState [c5GoodLine, c4BadLine, c5LegacyLine]).1.fileData =
      recvFileState.fileData ++ concatSegs [c5GoodLine, c4BadLine, c5LegacyLine] ∧
    (processLines recvFileState [c5GoodLine, c4BadLine, c5LegacyLine]).1.errorCount =
      recvFileState.errorCount +
        (countFileErrors [c5GoodLine, c4BadLine, c5LegacyLine] : Int) ∧
    recvFileState.totalBytes ≤
      (processLines recvFileState [c5GoodLine, c4BadLine, c5LegacyLine]).1.totalBytes ∧
    ((processLines recvFileState [c5GoodLine, c4BadLine, c5LegacyLine]).1.fileData.length :
        Int) =
      (recvFileState.fileData.length : Int) +
        (sumSegLens [c5GoodLine, c4BadLine, c5LegacyLine] : Int) :=
  c5_file_frame_invariants recvFileState [c5GoodLine, c4BadLine, c5LegacyLine]
    (by decide) (by decide)

/-- Claim C7 counterexample: on a completed screenshot frame whose
decoded bytes are not a PNG, a file IS materialized on disk — saveFile
creates (and leaves) the empty destination file before the PNG
validation runs — contradicting that no file is written.  The data
bytes are never written and exactly one error is reported. -/
theorem c7_invalid_png_counterexample :
    (goSaveScreenshot pngSigGood c7Ts c7Data 3).createdFile =
      some (screenshotFileName c7Ts) ∧
    (goSaveScreenshot pngSigGood c7Ts c7Data 3).writtenBytes = none ∧
    (goSaveScreenshot pngSigGood c7Ts c7Data 3).errors = 1 := by decide

/-- The demultiplexer returns to Idle when the screenshot end marker
arrives, handing the accumulated text to the materializer. -/
theorem processLine_screenshotEnd (st : DemuxState) (hf : st.isReceivingFile = false)
    (hs : st.isReceivingScreenshot = true) :
    processLine st screenshotEndMarker =
      ({ st with isReceivingScreenshot := false, screenshotData := [] },
       [DemuxEvent.savedScreenshot st.screenshotData st.expectedSize]) := by
  have htr : goTrimSpace screenshotEndMarker = screenshotEndMarker := by decide
  simp [processLine, hf, hs, htr, handleScreenshotLine]

/-- Claim C7 amended: for every completed screenshot frame whose
accumulated text decodes — on the first attempt or only after the
addPadding retry — to bytes that do not parse as PNG, no image bytes
are written, but the destination file is still created empty, because
creation precedes validation; one error is reported for the PNG parse
failure plus one more if the first base64 decode had failed (so
exactly one error on the first-attempt path, exactly two on the retry
path); and the demultiplexer returns to Idle on the end marker. -/
theorem c7_invalid_png_amended (pngOk : List Nat → Bool) (ts data : List Char)
    (sz : Int) (bytes : List Nat)
    (hdec : goDecodeStd (goTrimSpace data) = some bytes ∨
      (goDecodeStd (goTrimSpace data) = none ∧
       goDecodeStd (padTo4 (goTrimSpace data)) = some bytes))
    (hpng : pngOk bytes = false) :
    (goSaveScreenshot pngOk ts data sz).writtenBytes = none ∧
    (goSaveScreenshot pngOk ts data sz).errors =
      (if (goDecodeStd (goTrimSpace data)).isSome then 1 else 2) ∧
    (goSaveScreenshot pngOk ts data sz).createdFile = some (screenshotFileName ts) ∧
    (∀ st : DemuxState, st.isReceivingFile = false → st.isReceivingScreenshot = true →
      processLine st screenshotEndMarker =
        ({ st with isReceivingScreenshot := false, screenshotData := [] },
         [DemuxEvent.savedScreenshot st.screenshotData st.expectedSize])) := by
  rcases hdec with hdec | ⟨hnone, hdec⟩
  · have hsave : goSaveScreenshot pngOk ts data sz =
        goSaveScreenshotWrite pngOk ts bytes sz 0 := by
      simp only [goSaveScreenshot, hdec]
    rw [hsave]
    exact ⟨by simp [goSaveScreenshotWrite, hpng],
      by simp [goSaveScreenshotWrite, hpng, hdec],
      by simp [goSaveScreenshotWrite, hpng],
      fun st hf hs => processLine_screenshotEnd st hf hs⟩
  · have hsave : goSaveScreenshot pngOk ts data sz =
        goSaveScreenshotWrite pngOk ts bytes sz 1 := by
      simp only [goSaveScreenshot, hnone, hdec]
    rw [hsave]
    exact ⟨by simp [goSaveScreenshotWrite, hpng],
      by simp [goSaveScreenshotWrite, hpng, hnone],
      by simp [goSaveScreenshotWrite, hpng],
      fun st hf hs => processLine_screenshotEnd st hf hs⟩

/-- Witness for the C7 amended claim on both decode paths: `AAAA`
decodes at once (one error), `AAA` decodes only after the padding
retry (two errors). -/
theorem c7_invalid_png_amended_witness :
    (goSaveScreenshot pngSigGood c7Ts c7Data 3).writtenBytes = none ∧
    (goSaveScreenshot pngSigGood c7Ts c7Data 3).errors =
      (if (goDecodeStd (goTrimSpace c7Data)).isSome then 1 else 2) ∧
    (goSaveScreenshot pngSigGood c7Ts c7Data 3).createdFile =
      some (screenshotFileName c7Ts) ∧
    (goSaveScreenshot pngSigGood c7Ts c7DataShort 2).writtenBytes = none ∧
    (goSaveScreenshot pngSigGood c7Ts c7DataShort 2).errors =
      (if (goDecodeStd (goTrimSpace c7DataShort)).isSome then 1 else 2) ∧
    (goSaveScreenshot pngSigGood c7Ts c7DataShort 2).createdFile =
      some (screenshotFileName c7Ts) ∧
    processLine recvScreenshotState screenshotEndMarker =
      ({ recvScreenshotState with isReceivingScreenshot := false, screenshotData := [] },
       [DemuxEvent.savedScreenshot recvScreenshotState.screenshotData
          recvScreenshotState.expectedSize]) := by
  have h1 := c7_invalid_png_amended pngSigGood c7Ts c7Data 3 [0, 0, 0]
    (Or.inl (by decide)) (by decide)
  have h2 := c7_invalid_png_amended pngSigGood c7Ts c7DataShort 2 [0, 0]
    (Or.inr ⟨by decide, by decide⟩) (by decide)
  exact ⟨h1.1, h1.2.1, h1.2.2.1, h2.1, h2.2.1, h2.2.2.1,
    h1.2.2.2 recvScreenshotState (by decide) (by decide)⟩

/-- Claim C9: from the initial state, the demultiplexer is never in
both receiving modes at once (at most one Reassembly Buffer is live);
and a start marker arriving mid-transfer does not open a new frame: in
a file frame it is consumed by the chunk logic (the chunk counter
advances, name, size and both mode flags are untouched), in a
screenshot frame it is appended as encoded text. -/
theorem c9_single_live_buffer_and_fallthrough :
    (∀ lines : List (List Char),
      (processLines demuxInit lines).1.isReceivingFile = false ∨
      (processLines demuxInit lines).1.isReceivingScreenshot = false) ∧
    (∀ (st : DemuxState) (raw : List Char),
      st.isReceivingFile = true →
      (goStartsWith (goTrimSpace raw) fileStartMarker = true ∨
       goStartsWith (goTrimSpace raw) screenshotStartMarker = true) →
      (processLine st raw).1.isReceivingFile = true ∧
      (processLine st raw).1.isReceivingScreenshot = st.isReceivingScreenshot ∧
      (processLine st raw).1.fileName = st.fileName ∧
      (processLine st raw).1.expectedFileSize = st.expectedFileSize ∧
      (processLine st raw).1.chunkCount = st.chunkCount + 1 ∧
      (processLine st raw).2 = []) ∧
    (∀ (st : DemuxState) (raw : List Char),
      st.isReceivingFile = false → st.isReceivingScreenshot = true →
      (goStartsWith (goTrimSpace raw) fileStartMarker = true ∨
       goStartsWith (goTrimSpace raw) screenshotStartMarker = true) →
      (processLine st raw).1.isReceivingScreenshot = true ∧
      (processLine st raw).1.isReceivingFile = false ∧
      (processLine st raw).1.screenshotData = st.screenshotData ++ goTrimSpace raw ∧
      (processLine st raw).2 = []) := by
  refine ⟨?_, ?_, ?_⟩
  · intro lines
    exact processLines_excl lines demuxInit (Or.inl rfl)
  · intro st raw hf hm
    obtain ⟨hne, hnil, _⟩ := startMarker_facts _ hm
    rw [processLine_file st raw hf, handleFileLine_eq st _ hne]
    simp [hf, hnil]
  · intro st raw hf hs hm
    obtain ⟨_, _, hnse⟩ := startMarker_facts _ hm
    have hpl : processLine st raw = handleScreenshotLine st (goTrimSpace raw) := by
      simp [processLine, hf, hs]
    rw [hpl]
    unfold handleScreenshotLine
    rw [if_neg hnse]
    simp [hs, hf]

/-- Witness for C9 on concrete lines and states. -/
theorem c9_single_live_buffer_and_fallthrough_witness :
    ((processLines demuxInit [c2StartLine]).1.isReceivingFile = false ∨
     (processLines demuxInit [c2StartLine]).1.isReceivingScreenshot = false) ∧
    ((processLine recvFileState c9SsStartLine).1.isReceivingFile = true ∧
     (processLine recvFileState c9SsStartLine).1.isReceivingScreenshot =
       recvFileState.isReceivingScreenshot ∧
     (processLine recvFileState c9SsStartLine).1.fileName = recvFileState.fileName ∧
     (processLine recvFileState c9SsStartLine).1.expectedFileSize =
       recvFileState.expectedFileSize ∧
     (processLine recvFileState c9SsStartLine).1.chunkCount =
       recvFileState.chunkCount + 1 ∧
     (processLine recvFileState c9SsStartLine).2 = []) ∧
    ((processLine recvScreenshotState c2StartLine).1.isReceivingScreenshot = true ∧
     (processLine recvScreenshotState c2StartLine).1.isReceivingFile = false ∧
     (processLine recvScreenshotState c2StartLine).1.screenshotData =
       recvScreenshotState.screenshotData ++ goTrimSpace c2StartLine ∧
     (processLine recvScreenshotState c2StartLine).2 = []) := by
  obtain ⟨h1, h2, h3⟩ := c9_single_live_buffer_and_fallthrough
  exact ⟨h1 [c2StartLine],
         h2 recvFileState c9SsStartLine (by decide) (Or.inr (by decide)),
         h3 recvScreenshotState c2StartLine (by decide) (by decide) (Or.inl (by decide))⟩

/-- Claim C10: in the Idle state a line bearing a start marker whose
guard fails — three colon fields with a non-integer size for
`FILE_TRANSFER_START:`, exactly two colon fields with an integer size
for `SCREENSHOT_START:` — opens no frame: the state is unchanged and
the line is emitted as ordinary text output; and a file name containing
a colon always makes the size field unparsable. -/
theorem c10_malformed_start_stays_idle :
    (∀ (st : DemuxState) (raw : List Char),
      st.isReceivingFile = false → st.isReceivingScreenshot = false →
      goStartsWith (goTrimSpace raw) fileStartMarker = true →
      fileStartParse (goTrimSpace raw) = none →
      processLine st raw = (st, [DemuxEvent.textOutput (goTrimSpace raw)])) ∧
    (∀ (st : DemuxState) (raw : List Char),
      st.isReceivingFile = false → st.isReceivingScreenshot = false →
      goStartsWith (goTrimSpace raw) screenshotStartMarker = true →
      screenshotStartParse (goTrimSpace raw) = none →
      processLine st raw = (st, [DemuxEvent.textOutput (goTrimSpace raw)])) ∧
    (∀ name szs : List Char, ':' ∈ name →
      fileStartParse (fileStartMarker ++ (name ++ ':' :: szs)) = none) := by
  refine ⟨?_, ?_, ?_⟩
  · intro st raw hf hs hm hparse
    obtain ⟨t, ht⟩ := (goStartsWith_iff _ _).mp hm
    have hss : goStartsWith (goTrimSpace raw) screenshotStartMarker = false := by
      rw [ht, fileStartMarker_chars, screenshotStartMarker_chars]
      simp [goStartsWith]
    have hnend : goTrimSpace raw ≠ endResponseMarker := by
      rw [ht, fileStartMarker_chars, endResponseMarker_chars]
      intro e
      simp at e
    simp [processLine, hf, hs, hm, hparse, idleAfterFileCheck, hss, idleTail, hnend]
  · intro st raw hf hs hm hparse
    obtain ⟨t, ht⟩ := (goStartsWith_iff _ _).mp hm
    have hfs : goStartsWith (goTrimSpace raw) fileStartMarker = false := by
      rw [ht, fileStartMarker_chars, screenshotStartMarker_chars]
      simp [goStartsWith]
    have hnend : goTrimSpace raw ≠ endResponseMarker := by
      rw [ht, screenshotStartMarker_chars, endResponseMarker_chars]
      intro e
      simp at e
    simp [processLine, hf, hs, hm, hparse, idleAfterFileCheck, hfs, idleTail, hnend]
  · intro name szs hcolon
    obtain ⟨a, b, hab⟩ := splitFirstColon_of_mem name hcolon
    have hsh : fileStartMarker ++ (name ++ ':' :: szs) =
        "FILE_TRANSFER_START".toList ++ ':' :: (name ++ ':' :: szs) := by
      rw [fileStartMarker_split]
      simp
    have hsp1 : splitFirstColon (fileStartMarker ++ (name ++ ':' :: szs)) =
        some ("FILE_TRANSFER_START".toList, name ++ ':' :: szs) := by
      rw [hsh]
      exact splitFirstColon_append_left _ _ (by decide)
    have hsp2 : splitFirstColon (name ++ ':' :: szs) = some (a, b ++ ':' :: szs) :=
      splitFirstColon_extend name (':' :: szs) a b hab
    simp only [fileStartParse, goSplitN3Colon, hsp1, hsp2,
      goParseInt64_colon (b ++ ':' :: szs) (by simp)]

/-- Witness for C10 on concrete malformed start lines. -/
theorem c10_malformed_start_stays_idle_witness :
    processLine demuxInit c10FileLine =
      (demuxInit, [DemuxEvent.textOutput (goTrimSpace c10FileLine)]) ∧
    processLine demuxInit c10SsLine =
      (demuxInit, [DemuxEvent.textOutput (goTrimSpace c10SsLine)]) ∧
    fileStartParse (fileStartMarker ++ (c10ColonName ++ ':' :: c10Szs)) = none := by
  obtain ⟨h1, h2, h3⟩ := c10_malformed_start_stays_idle
  exact ⟨h1 demuxInit c10FileLine (by decide) (by decide) (by decide) (by decide),
         h2 demuxInit c10SsLine (by decide) (by decide) (by decide) (by decide),
         h3 c10ColonName c10Szs (by decide)⟩
